import Mathlib

/-!
Verification of the LRArchiveRetention retention-enforcement engine.

The repository's core (lock manager, retention scanner, deletion executor,
parallel orchestrator, directory cleanup, run report) is exercised by the
Python harnesses under `src/`; the core itself is specified in `spec.md`.
Definitions below that embed the core are marked `Modelled from the spec:`;
definitions for `winrm_helper.py` and `generate_test_data_mac.py` are
translated directly from that Python source.
-/

/-! ## Filesystem tree model -/

/-- A node of an archive tree: a regular file (with its captured
`lastModified` timestamp and size in bytes), an unreadable subtree
(the scanner records an error and continues), or a directory. -/
inductive Entry where
  | file (name : String) (lastModified : Nat) (sizeBytes : Nat)
  | unreadable (name : String)
  | dir (name : String) (children : List Entry)

/-- The name component of an entry. -/
def Entry.name : Entry → String
  | .file n _ _ => n
  | .unreadable n => n
  | .dir n _ => n

/-- Modelled from the spec: the Run Report aggregate
`{ filesScanned, filesExpired, filesDeleted, bytesDeleted, directoriesRemoved, errors }`
(§3); the error list is tallied here as a count of error records. -/
structure Report where
  filesScanned : Nat
  filesExpired : Nat
  filesDeleted : Nat
  bytesDeleted : Nat
  directoriesRemoved : Nat
  errors : Nat
deriving DecidableEq

/-- Componentwise accumulation of two run reports. -/
def Report.add (a b : Report) : Report :=
  ⟨a.filesScanned + b.filesScanned, a.filesExpired + b.filesExpired,
   a.filesDeleted + b.filesDeleted, a.bytesDeleted + b.bytesDeleted,
   a.directoriesRemoved + b.directoriesRemoved, a.errors + b.errors⟩

/-- The empty run report. -/
def Report.zero : Report := ⟨0, 0, 0, 0, 0, 0⟩

/-- Modelled from the spec: execution mode enumeration `{ DryRun, Execute }` (§3). -/
inductive Mode where
  | dryRun
  | execute
deriving DecidableEq

/-- Modelled from the spec: classification — a candidate is expired iff
`lastModified < cutoff`; equality is retained (§4.2). -/
def isExpired (cutoff lastModified : Nat) : Bool := lastModified < cutoff

/-- Prepend an optional element to a list. -/
def optCons {α : Type} : Option α → List α → List α
  | none, xs => xs
  | some x, xs => x :: xs

mutual
/-- Modelled from the spec: an `Execute` run over one entry (missing source
`ArchiveRetention.ps1`): the Deletion Executor deletes a file iff it is
expired (§4.3), the scanner records an error for an unreadable subtree and
continues (§4.2), and Directory Cleanup removes a directory iff it contains
zero entries after its own children have been evaluated, bottom-up in the
same pass (§4.5).  Returns the surviving subtree (`none` when the entry is
gone) together with the report contribution. -/
def execEntry (cutoff : Nat) : Entry → Option Entry × Report
  | .file n lm sz =>
      if isExpired cutoff lm then (none, ⟨1, 1, 1, sz, 0, 0⟩)
      else (some (.file n lm sz), ⟨1, 0, 0, 0, 0, 0⟩)
  | .unreadable _0 => (some (.unreadable _0), ⟨0, 0, 0, 0, 0, 1⟩)
  | .dir n cs =>
      if (execList cutoff cs).1.isEmpty
      then (none, Report.add (execList cutoff cs).2 ⟨0, 0, 0, 0, 1, 0⟩)
      else (some (.dir n (execList cutoff cs).1), (execList cutoff cs).2)

/-- Modelled from the spec: an `Execute` run over a list of sibling entries,
accumulating the surviving entries in order and adding up the reports. -/
def execList (cutoff : Nat) : List Entry → List Entry × Report
  | [] => ([], Report.zero)
  | c :: cs =>
      (optCons (execEntry cutoff c).1 (execList cutoff cs).1,
       Report.add (execEntry cutoff c).2 (execList cutoff cs).2)
end

mutual
/-- Modelled from the spec: whether an entry would be entirely gone after an
`Execute` run — an expired file vanishes, an unreadable subtree never does,
and a directory vanishes iff all of its children would (§4.5). -/
def wouldVanish (cutoff : Nat) : Entry → Bool
  | .file _ lm _ => isExpired cutoff lm
  | .unreadable _ => false
  | .dir _ cs => allVanish cutoff cs

/-- Whether every entry of a sibling list would vanish under `Execute`. -/
def allVanish (cutoff : Nat) : List Entry → Bool
  | [] => true
  | c :: cs => wouldVanish cutoff c && allVanish cutoff cs
end

mutual
/-- Modelled from the spec: a `DryRun` over one entry performs no filesystem
mutation and records the would-be outcome identically to `Execute` mode for
reporting parity (§4.3); the same bottom-up directory-removal decision is
computed and reported but no removal occurs (§4.5). -/
def dryEntry (cutoff : Nat) : Entry → Report
  | .file _ lm sz =>
      if isExpired cutoff lm then ⟨1, 1, 1, sz, 0, 0⟩ else ⟨1, 0, 0, 0, 0, 0⟩
  | .unreadable _ => ⟨0, 0, 0, 0, 0, 1⟩
  | .dir _ cs =>
      if allVanish cutoff cs
      then Report.add (dryList cutoff cs) ⟨0, 0, 0, 0, 1, 0⟩
      else dryList cutoff cs

/-- Modelled from the spec: a `DryRun` over a list of sibling entries. -/
def dryList (cutoff : Nat) : List Entry → Report
  | [] => Report.zero
  | c :: cs => Report.add (dryEntry cutoff c) (dryList cutoff cs)
end

/-- Modelled from the spec: one retention run over the forest of root
entries with the single per-run cutoff (§3): `Execute` mutates the tree,
`DryRun` leaves it untouched and only computes the report. -/
def runRetention (mode : Mode) (cutoff : Nat) (roots : List Entry) :
    List Entry × Report :=
  match mode with
  | .execute => execList cutoff roots
  | .dryRun => (roots, dryList cutoff roots)

mutual
/-- All files in an entry, as (path, lastModified, sizeBytes) triples, the
path being the list of names from this entry down to the file. -/
def filesIn : Entry → List (List String × Nat × Nat)
  | .file n lm sz => [([n], lm, sz)]
  | .unreadable _ => []
  | .dir n cs => (filesInList cs).map (fun p => (n :: p.1, p.2))

/-- All files in a list of sibling entries. -/
def filesInList : List Entry → List (List String × Nat × Nat)
  | [] => []
  | c :: cs => filesIn c ++ filesInList cs
end

/-- Files of an optional entry (`none` holds no files). -/
def filesInOpt : Option Entry → List (List String × Nat × Nat)
  | none => []
  | some e => filesIn e

/-- Whether the entry's subtree contains at least one retained
(non-expired) file. -/
def hasRetainedFile (cutoff : Nat) (e : Entry) : Bool :=
  (filesIn e).any (fun p => !isExpired cutoff p.2.1)

mutual
/-- Look up the subtree of an entry at a path of names ([] is the entry
itself); descending is only possible through directories. -/
def subtreeAt : Entry → List String → Option Entry
  | e, [] => some e
  | .file _ _ _, _ :: _ => none
  | .unreadable _, _ :: _ => none
  | .dir _ cs, n :: p => subtreeInList cs (n :: p)

/-- Look up a (nonempty) path among a list of sibling entries: descend into
the first sibling carrying the path's head name. -/
def subtreeInList : List Entry → List String → Option Entry
  | [], _ => none
  | _ :: _, [] => none
  | c :: cs, n :: p =>
      if c.name = n then subtreeAt c p else subtreeInList cs (n :: p)
end

/-- Look up a path under an optional entry. -/
def optSubtree (oe : Option Entry) (p : List String) : Option Entry :=
  match oe with
  | none => none
  | some e => subtreeAt e p

/-- Whether the names of a list of sibling entries are pairwise distinct. -/
def namesDistinct : List Entry → Bool
  | [] => true
  | c :: cs => !(cs.any (fun d => d.name == c.name)) && namesDistinct cs

mutual
/-- A well-formed tree: in every directory the children carry pairwise
distinct names (as a real filesystem guarantees). -/
def wfEntry : Entry → Bool
  | .file _ _ _ => true
  | .unreadable _ => true
  | .dir _ cs => namesDistinct cs && wfList cs

/-- Well-formedness of each entry of a list. -/
def wfList : List Entry → Bool
  | [] => true
  | c :: cs => wfEntry c && wfList cs
end

/-- Structural induction for `Entry` with a membership hypothesis for the
children of a directory. -/
def Entry.inductionOn {motive : Entry → Prop} (e : Entry)
    (hfile : ∀ n lm sz, motive (Entry.file n lm sz))
    (hunread : ∀ n, motive (Entry.unreadable n))
    (hdir : ∀ n cs, (∀ c ∈ cs, motive c) → motive (Entry.dir n cs)) :
    motive e :=
  match e with
  | .file n lm sz => hfile n lm sz
  | .unreadable n => hunread n
  | .dir n cs => hdir n cs (fun c _ => Entry.inductionOn c hfile hunread hdir)

/-! ## Lock Manager model -/

/-- Modelled from the spec: the Lock Record
`{ ownerProcessId, acquiredAt }` persisted as the sole content of the
well-known lock file (§3). -/
structure LockRecord where
  ownerProcessId : Nat
  acquiredAt : Nat
deriving DecidableEq

/-- The state of the lock file for one archive root: absent, or holding the
single Lock Record.  `Option` makes the invariant that at most one lock
record exists for a given archive root hold by construction. -/
abbrev LockState := Option LockRecord

/-- Outcome of a lock acquisition attempt (§4.1). -/
inductive AcqResult where
  | acquired
  | lockHeld
  | lockError
deriving DecidableEq

/-- Caller-requested lock-recovery mode (§4.1): normal, `ForceClearLock`
(clear a verified orphaned lock, race-checked), or `Force` (terminate the
conflicting process and clear unconditionally). -/
inductive AcqMode where
  | normal
  | forceClearLock
  | force
deriving DecidableEq

/-- Modelled from the spec: the atomic exclusive-create of the lock file —
it fails if the file is already present rather than check-then-create
(§4.1).  This single step is the only primitive two concurrent processes
interleave. -/
def tryCreate (pid t : Nat) (s : LockState) : AcqResult × LockState :=
  match s with
  | some r => (.lockHeld, some r)
  | none => (.acquired, some ⟨pid, t⟩)

/-- Modelled from the spec: full lock acquisition (§4.1) for process `pid`
at time `t`, where `running` is the set of live process ids and
`interloper` is what a concurrent writer (if any) manages to write into the
gap between a lock-file removal and the subsequent re-create (`none` when
no concurrent writer exists).  Returns the outcome, the resulting lock
state, and how many retries (removal-then-recreate attempts) were made:

* exclusive create succeeds ⇒ `acquired`, no retry;
* `Force` ⇒ terminate the owner, remove unconditionally, recreate;
* `ForceClearLock` ⇒ remove unconditionally, then re-verify by attempting
  exclusive create; if that still fails, report `lockHeld` rather than
  silently succeeding;
* normal mode, owner not running (stale) ⇒ remove and retry exactly once;
* normal mode, owner running ⇒ `lockHeld`, no side effects. -/
def acquire (pid t : Nat) (running : List Nat) (mode : AcqMode)
    (interloper : Option LockRecord) (s : LockState) :
    AcqResult × LockState × Nat :=
  match tryCreate pid t s with
  | (.acquired, created) => (.acquired, created, 0)
  | _ =>
    match s, mode with
    | some _, .force => (.acquired, some ⟨pid, t⟩, 1)
    | some _, .forceClearLock =>
        (match tryCreate pid t interloper with
         | (.acquired, created) => (.acquired, created, 1)
         | _ => (.lockHeld, interloper, 1))
    | some r, .normal =>
        if r.ownerProcessId ∈ running then (.lockHeld, some r, 0)
        else
          (match tryCreate pid t interloper with
           | (.acquired, created) => (.acquired, created, 1)
           | _ => (.lockHeld, interloper, 1))
    | none, _ => (.lockError, none, 0)

/-- Modelled from the spec: the rapid-succession scenario of §8 — before
each of `k` invocations an orphaned lock record is recreated, and
`ForceClearLock` acquisition is invoked with no real concurrent writer;
the list of the `k` outcomes is returned. -/
def repeatedForceClear (pid t : Nat) (running : List Nat)
    (orphan : LockRecord) : Nat → List AcqResult
  | 0 => []
  | k + 1 =>
      (acquire pid t running .forceClearLock none (some orphan)).1
        :: repeatedForceClear pid t running orphan k

/-! ## Parallel Orchestrator decision policy -/

/-- Whether the archive root resolves to a network path or a local path. -/
inductive PathKind where
  | network
  | localPath
deriving DecidableEq

/-- Modelled from the spec: concurrency mode enumeration
`{ Sequential, Parallel(threadCount) }` (§3). -/
inductive ConcurrencyMode where
  | sequential
  | parallel (threadCount : Nat)
deriving DecidableEq

/-- Modelled from the spec: the fixed default worker count for auto-enabled
parallel mode; the policy constant is observed through the test
expectation of 8 threads (`src/tests/integration/test_parallel_defaults.py`). -/
def defaultParallelThreads : Nat := 8

/-- Number of execution units actually running deletions under a mode:
sequential execution is strictly single-threaded. -/
def ConcurrencyMode.workerCount : ConcurrencyMode → Nat
  | .sequential => 1
  | .parallel k => k

/-- Modelled from the spec: the orchestrator's decision policy (§4.4) —
a network root with no explicit override selects `Parallel` with the fixed
default worker count; a local root defaults to `Sequential`; an explicit
sequential override is honored but, on a network root, surfaces a
performance warning (the returned Boolean; advisory only). -/
def decideConcurrency (kind : PathKind) (sequentialOverride : Bool) :
    ConcurrencyMode × Bool :=
  if sequentialOverride then (.sequential, kind = .network)
  else
    match kind with
    | .network => (.parallel defaultParallelThreads, false)
    | .localPath => (.sequential, false)

/-! ## Entry point and exit codes -/

/-- Modelled from the spec: configuration of one run — execution mode, the
retention cutoff computed exactly once per run, and the configured per-file
failure threshold (§3, §6). -/
structure RunConfig where
  mode : Mode
  cutoff : Nat
  threshold : Nat

/-- Modelled from the spec: the entry point of one run (§2, §6, §7):
acquire the lock, fail fatally (non-zero exit, no deletions) when it is
held or on an unreachable archive root, otherwise perform the retention
run; per-file errors produce a non-zero exit only when they exceed the
configured failure threshold.  Returns the exit code, the final lock state
(the lock is released on every exit path that acquired it), and the run
report when one was produced. -/
def fullRun (pid t : Nat) (running : List Nat) (amode : AcqMode)
    (interloper : Option LockRecord) (lockSt : LockState)
    (root : Option (List Entry)) (cfg : RunConfig) :
    Nat × LockState × Option Report :=
  match acquire pid t running amode interloper lockSt with
  | (.acquired, _, _) =>
      match root with
      | none => (2, none, none)
      | some roots =>
          let rep := (runRetention cfg.mode cfg.cutoff roots).2
          (if cfg.threshold < rep.errors then 3 else 0, none, some rep)
  | (_, after, _) => (1, after, none)

/-! ## winrm_helper.run_powershell -/

/-- Result of a successful `session.run_ps` call in `winrm_helper.py`:
status code and raw standard output/error (bytes, modelled as strings). -/
structure PSCallResult where
  status_code : Int
  std_out : String
  std_err : String
deriving DecidableEq

/-- The dictionary `run_powershell` returns: exactly the keys `exit_code`,
`stdout` and `stderr` (`src/winrm_helper.py`). -/
structure PSRunOutcome where
  exit_code : Int
  stdout : String
  stderr : String
deriving DecidableEq

/-- Python truthiness of a bytes value: nonempty. -/
def pyTruthy (s : String) : Bool := !s.isEmpty

/-- `run_powershell` from `src/winrm_helper.py`: the underlying
`session.run_ps` call either returns a result or raises (modelled as
`Except`, the error being the exception message `str(e)`); the whole body
is wrapped in try/except, so on an exception the function returns
`{'exit_code': -1, 'stdout': '', 'stderr': str(e)}` instead of
propagating.  `bytes.decode().strip()` is modelled by `String.trim`. -/
def run_powershell (call : Except String PSCallResult) : PSRunOutcome :=
  match call with
  | .ok r =>
      { exit_code := r.status_code,
        stdout := if pyTruthy r.std_out then r.std_out.trim else "",
        stderr := if pyTruthy r.std_err then r.std_err.trim else "" }
  | .error e => { exit_code := -1, stdout := "", stderr := e }

/-! ## generate_test_data_mac.auto_scale_parameters -/

/-- The local `avg_files_per_folder = (min_files + max_files) / 2` of
`auto_scale_parameters` (`src/tests/generate_test_data_mac.py`); Python
float arithmetic is modelled by exact rational arithmetic throughout. -/
def avgFilesPerFolder (min_files max_files : Nat) : ℚ :=
  ((min_files : ℚ) + (max_files : ℚ)) / 2

/-- The local `avg_file_size = (max_file_size_mb * 1024 * 1024) / 2`. -/
def avgFileSize (max_file_size_mb : Nat) : ℚ :=
  ((max_file_size_mb : ℚ) * 1024 * 1024) / 2

/-- The local `required_space_gb`: estimated total bytes (folder count
times average files per folder times average file size) with the 5% safety
margin, converted to GB. -/
def requiredSpaceGB (folder_count min_files max_files max_file_size_mb : Nat) : ℚ :=
  ((folder_count : ℚ) * avgFilesPerFolder min_files max_files
      * avgFileSize max_file_size_mb * (1 + 5 / 100)) / 1024 / 1024 / 1024

/-- The local `total_files_allowed = int(max_bytes / (avg_file_size * 1.05))`
where `max_bytes = max_size_gb * 1024**3`; `int(...)` on the nonnegative
values involved is `Int.floor`. -/
def totalFilesAllowed (max_file_size_mb : Nat) (max_size_gb : ℚ) : ℤ :=
  ⌊(max_size_gb * 1024 * 1024 * 1024)
      / (avgFileSize max_file_size_mb * (1 + 5 / 100))⌋

/-- The local `ideal_folder_count = int(total_files_allowed / avg_files_per_folder)`. -/
def idealFolderCount (min_files max_files max_file_size_mb : Nat)
    (max_size_gb : ℚ) : ℤ :=
  ⌊(totalFilesAllowed max_file_size_mb max_size_gb : ℚ)
      / avgFilesPerFolder min_files max_files⌋

/-- `auto_scale_parameters` from `src/tests/generate_test_data_mac.py`,
returning `(new_folder_count, new_max_files)`: unchanged inputs when the
estimate fits in `max_size_gb`; otherwise reduce the folder count when the
ideal folder count is at least 1, else recompute the folder count from
`min_files` and cap the per-folder maximum.  (For `min_files = 0` the
fallback branch divides by zero in Python; rational division by zero is
total in Lean, so claims about that branch carry a `1 ≤ min_files`
hypothesis.) -/
def auto_scale_parameters (folder_count min_files max_files max_file_size_mb : Nat)
    (max_size_gb : ℚ) : Nat × Nat :=
  if requiredSpaceGB folder_count min_files max_files max_file_size_mb ≤ max_size_gb then
    (folder_count, max_files)
  else if 1 ≤ idealFolderCount min_files max_files max_file_size_mb max_size_gb then
    (min (idealFolderCount min_files max_files max_file_size_mb max_size_gb).toNat
       folder_count,
     max_files)
  else
    let new_folder_count : Nat :=
      max (⌊(totalFilesAllowed max_file_size_mb max_size_gb : ℚ)
          / (min_files : ℚ)⌋).toNat 1
    let max_files_per_folder : ℤ :=
      ⌊(totalFilesAllowed max_file_size_mb max_size_gb : ℚ)
          / (new_folder_count : ℚ)⌋
    (new_folder_count, max (min max_files_per_folder.toNat max_files) min_files)

/-! ## Lemmas: the surviving tree of an Execute run -/

theorem execList_isEmpty_aux (cutoff : Nat) (cs : List Entry)
    (IH : ∀ c ∈ cs, (execEntry cutoff c).1.isNone = wouldVanish cutoff c) :
    (execList cutoff cs).1.isEmpty = allVanish cutoff cs := by
  induction cs with
  | nil => simp [execList, allVanish]
  | cons c cs ih =>
      have h1 := IH c (by simp)
      have h2 := ih (fun d hd => IH d (List.mem_cons_of_mem _ hd))
      rw [execList, allVanish, ← h1, ← h2]
      cases hc : (execEntry cutoff c).1 <;> simp [hc, optCons]

theorem exec_isNone (cutoff : Nat) (e : Entry) :
    (execEntry cutoff e).1.isNone = wouldVanish cutoff e := by
  induction e using Entry.inductionOn with
  | hfile n lm sz =>
      rw [execEntry, wouldVanish]
      cases h : isExpired cutoff lm <;> simp [h]
  | hunread n => rw [execEntry, wouldVanish]; rfl
  | hdir n cs ih =>
      have hlist := execList_isEmpty_aux cutoff cs ih
      rw [execEntry, wouldVanish, ← hlist]
      cases h : (execList cutoff cs).1.isEmpty <;> simp [h]

theorem execList_isEmpty (cutoff : Nat) (cs : List Entry) :
    (execList cutoff cs).1.isEmpty = allVanish cutoff cs :=
  execList_isEmpty_aux cutoff cs (fun c _ => exec_isNone cutoff c)

/-! ## Lemmas: dry-run / execute report parity -/

theorem dry_parity_aux (cutoff : Nat) (cs : List Entry)
    (IH : ∀ c ∈ cs, dryEntry cutoff c = (execEntry cutoff c).2) :
    dryList cutoff cs = (execList cutoff cs).2 := by
  induction cs with
  | nil => rw [dryList, execList]
  | cons c cs ih =>
      rw [dryList, execList, IH c (by simp),
        ih (fun d hd => IH d (List.mem_cons_of_mem _ hd))]

theorem dry_parity (cutoff : Nat) (e : Entry) :
    dryEntry cutoff e = (execEntry cutoff e).2 := by
  induction e using Entry.inductionOn with
  | hfile n lm sz =>
      rw [dryEntry, execEntry]
      cases h : isExpired cutoff lm <;> simp [h]
  | hunread n => rw [dryEntry, execEntry]
  | hdir n cs ih =>
      have hlist := dry_parity_aux cutoff cs ih
      rw [dryEntry, execEntry, ← execList_isEmpty, ← hlist]
      cases h : (execList cutoff cs).1.isEmpty <;> simp [h]

theorem dryList_parity (cutoff : Nat) (cs : List Entry) :
    dryList cutoff cs = (execList cutoff cs).2 :=
  dry_parity_aux cutoff cs (fun c _ => dry_parity cutoff c)

/-! ## Lemmas: files surviving an Execute run are exactly the retained ones -/

theorem filesInList_optCons (o : Option Entry) (l : List Entry) :
    filesInList (optCons o l) = filesInOpt o ++ filesInList l := by
  cases o <;> simp [optCons, filesInOpt, filesInList]

theorem filesIn_exec_aux (cutoff : Nat) (cs : List Entry)
    (IH : ∀ c ∈ cs, filesInOpt (execEntry cutoff c).1
      = (filesIn c).filter (fun q => !isExpired cutoff q.2.1)) :
    filesInList (execList cutoff cs).1
      = (filesInList cs).filter (fun q => !isExpired cutoff q.2.1) := by
  induction cs with
  | nil => simp [execList, filesInList]
  | cons c cs ih =>
      rw [execList]
      rw [show (optCons (execEntry cutoff c).1 (execList cutoff cs).1,
            Report.add (execEntry cutoff c).2 (execList cutoff cs).2).1
          = optCons (execEntry cutoff c).1 (execList cutoff cs).1 from rfl]
      rw [filesInList_optCons, IH c (by simp),
        ih (fun d hd => IH d (List.mem_cons_of_mem _ hd)), filesInList,
        List.filter_append]

theorem filesIn_exec (cutoff : Nat) (e : Entry) :
    filesInOpt (execEntry cutoff e).1
      = (filesIn e).filter (fun q => !isExpired cutoff q.2.1) := by
  induction e using Entry.inductionOn with
  | hfile n lm sz =>
      rw [execEntry]
      cases h : isExpired cutoff lm <;> simp [h, filesInOpt, filesIn]
  | hunread n => rw [execEntry, filesIn]; rfl
  | hdir n cs ih =>
      have hlist := filesIn_exec_aux cutoff cs ih
      rw [execEntry]
      by_cases h : (execList cutoff cs).1.isEmpty
      · rw [if_pos h, filesIn, List.filter_map]
        have : (execList cutoff cs).1 = [] := by simpa using h
        rw [show ((fun q : List String × Nat × Nat => !isExpired cutoff q.2.1)
              ∘ fun q : List String × Nat × Nat => (n :: q.1, q.2))
            = fun q : List String × Nat × Nat => !isExpired cutoff q.2.1 from rfl]
        rw [← hlist, this, filesInList, List.map_nil]
        rfl
      · rw [if_neg h, filesInOpt, filesIn, filesIn, List.filter_map]
        rw [show ((fun q : List String × Nat × Nat => !isExpired cutoff q.2.1)
              ∘ fun q : List String × Nat × Nat => (n :: q.1, q.2))
            = fun q : List String × Nat × Nat => !isExpired cutoff q.2.1 from rfl]
        rw [hlist]

theorem filesIn_execList (cutoff : Nat) (cs : List Entry) :
    filesInList (execList cutoff cs).1
      = (filesInList cs).filter (fun q => !isExpired cutoff q.2.1) :=
  filesIn_exec_aux cutoff cs (fun c _ => filesIn_exec cutoff c)

/-! ## Lemmas: directory lookup through an Execute run -/

theorem exec_none_of_vanish (cutoff : Nat) (e : Entry)
    (h : wouldVanish cutoff e = true) : (execEntry cutoff e).1 = none := by
  have h0 := exec_isNone cutoff e
  rw [h] at h0
  exact Option.isNone_iff_eq_none.mp h0

theorem vanish_of_exec_none (cutoff : Nat) (e : Entry)
    (h : (execEntry cutoff e).1 = none) : wouldVanish cutoff e = true := by
  have h0 := exec_isNone cutoff e
  rw [h] at h0
  exact h0.symm

theorem exec_name (cutoff : Nat) (c c' : Entry)
    (h : (execEntry cutoff c).1 = some c') : c'.name = c.name := by
  cases c with
  | file n lm sz =>
      rw [execEntry] at h
      by_cases he : isExpired cutoff lm
      · simp [he] at h
      · simp [he] at h; rw [← h, Entry.name]
  | unreadable n =>
      rw [execEntry] at h
      simp at h; rw [← h, Entry.name]
  | dir n cs =>
      rw [execEntry] at h
      by_cases he : (execList cutoff cs).1.isEmpty
      · simp [he] at h
      · simp [he] at h; simp [← h, Entry.name]

theorem mem_execList_name (cutoff : Nat) (cs : List Entry) (d : Entry)
    (hd : d ∈ (execList cutoff cs).1) : ∃ c ∈ cs, d.name = c.name := by
  induction cs with
  | nil => simp [execList] at hd
  | cons c cs ih =>
      simp only [execList] at hd
      cases he : (execEntry cutoff c).1 with
      | none =>
          rw [he] at hd
          obtain ⟨c0, hc0, hn⟩ := ih hd
          exact ⟨c0, List.mem_cons_of_mem _ hc0, hn⟩
      | some c' =>
          rw [he] at hd
          rcases List.mem_cons.mp hd with h | h
          · exact ⟨c, List.mem_cons_self _ _, h ▸ exec_name cutoff c c' he⟩
          · obtain ⟨c0, hc0, hn⟩ := ih h
            exact ⟨c0, List.mem_cons_of_mem _ hc0, hn⟩

theorem subtreeInList_none (m : String) (q : List String) (l : List Entry)
    (h : ∀ d ∈ l, d.name ≠ m) : subtreeInList l (m :: q) = none := by
  induction l with
  | nil => rw [subtreeInList]
  | cons c cs ih =>
      rw [subtreeInList, if_neg (h c (List.mem_cons_self _ _))]
      exact ih (fun d hd => h d (List.mem_cons_of_mem _ hd))

theorem vanish_subtreeInList_aux (cutoff : Nat) (m : String) (q : List String)
    (s : Entry) (l : List Entry)
    (IH : ∀ c ∈ l, ∀ p s2, wouldVanish cutoff c = true →
       subtreeAt c p = some s2 → wouldVanish cutoff s2 = true)
    (hall : allVanish cutoff l = true) (h : subtreeInList l (m :: q) = some s) :
    wouldVanish cutoff s = true := by
  induction l with
  | nil => rw [subtreeInList] at h; cases h
  | cons c cs ih =>
      rw [allVanish, Bool.and_eq_true] at hall
      rw [subtreeInList] at h
      by_cases hc : c.name = m
      · rw [if_pos hc] at h
        exact IH c (List.mem_cons_self _ _) q s hall.1 h
      · rw [if_neg hc] at h
        exact ih (fun d hd => IH d (List.mem_cons_of_mem _ hd)) hall.2 h

theorem vanish_subtree (cutoff : Nat) (e : Entry) :
    ∀ p s, wouldVanish cutoff e = true → subtreeAt e p = some s →
      wouldVanish cutoff s = true := by
  induction e using Entry.inductionOn with
  | hfile n lm sz =>
      intro p s hv hs
      cases p with
      | nil => rw [subtreeAt] at hs; cases hs; exact hv
      | cons a p => rw [subtreeAt] at hs; cases hs
  | hunread n =>
      intro p s hv hs
      rw [wouldVanish] at hv; cases hv
  | hdir n cs ih =>
      intro p s hv hs
      cases p with
      | nil => rw [subtreeAt] at hs; cases hs; exact hv
      | cons m q =>
          rw [subtreeAt] at hs
          rw [wouldVanish] at hv
          exact vanish_subtreeInList_aux cutoff m q s cs ih hv hs

theorem optSubtree_nil (o : Option Entry) : optSubtree o [] = o := by
  cases o
  · rfl
  · rw [optSubtree, subtreeAt]

theorem namesDistinct_head (c : Entry) (cs : List Entry)
    (h : namesDistinct (c :: cs) = true) :
    (∀ d ∈ cs, d.name ≠ c.name) ∧ namesDistinct cs = true := by
  rw [namesDistinct, Bool.and_eq_true] at h
  refine ⟨?_, h.2⟩
  intro d hd
  have h1 := h.1
  simp only [Bool.not_eq_true', List.any_eq_false] at h1
  have h3 := h1 d hd
  simpa using h3

theorem wfList_head (c : Entry) (cs : List Entry)
    (h : wfList (c :: cs) = true) : wfEntry c = true ∧ wfList cs = true := by
  rw [wfList, Bool.and_eq_true] at h; exact h

theorem wf_dir (n : String) (cs : List Entry)
    (h : wfEntry (.dir n cs) = true) :
    namesDistinct cs = true ∧ wfList cs = true := by
  rw [wfEntry, Bool.and_eq_true] at h; exact h

theorem exec_subtree_list_aux (cutoff : Nat) (m : String) (q : List String)
    (s : Entry) (cs : List Entry)
    (IH : ∀ c ∈ cs, wfEntry c = true → ∀ p s2, subtreeAt c p = some s2 →
       optSubtree (execEntry cutoff c).1 p = (execEntry cutoff s2).1)
    (hnd : namesDistinct cs = true) (hwl : wfList cs = true)
    (h : subtreeInList cs (m :: q) = some s) :
    subtreeInList (execList cutoff cs).1 (m :: q) = (execEntry cutoff s).1 := by
  induction cs with
  | nil => rw [subtreeInList] at h; cases h
  | cons c cs ih =>
      obtain ⟨hne, hnd2⟩ := namesDistinct_head c cs hnd
      obtain ⟨hwc, hwcs⟩ := wfList_head c cs hwl
      rw [subtreeInList] at h
      simp only [execList]
      by_cases hc : c.name = m
      · rw [if_pos hc] at h
        cases he : (execEntry cutoff c).1 with
        | none =>
            rw [optCons]
            have hv : wouldVanish cutoff c = true := vanish_of_exec_none cutoff c he
            have hvs : wouldVanish cutoff s = true := vanish_subtree cutoff c q s hv h
            rw [exec_none_of_vanish cutoff s hvs]
            apply subtreeInList_none
            intro d hd
            obtain ⟨c0, hc0, hdn⟩ := mem_execList_name cutoff cs d hd
            rw [hdn]
            intro hEq
            exact hne c0 hc0 (hEq.trans hc.symm)
        | some c' =>
            rw [optCons, subtreeInList,
              if_pos ((exec_name cutoff c c' he).trans hc)]
            have hIH := IH c (List.mem_cons_self _ _) hwc q s h
            rw [he, optSubtree] at hIH
            exact hIH
      · rw [if_neg hc] at h
        have hrest := ih (fun d hd => IH d (List.mem_cons_of_mem _ hd)) hnd2 hwcs h
        cases he : (execEntry cutoff c).1 with
        | none => rw [optCons]; exact hrest
        | some c' =>
            rw [optCons, subtreeInList,
              if_neg (fun hEq => hc ((exec_name cutoff c c' he).symm.trans hEq))]
            exact hrest

theorem exec_subtree (cutoff : Nat) (e : Entry) :
    wfEntry e = true → ∀ p s, subtreeAt e p = some s →
      optSubtree (execEntry cutoff e).1 p = (execEntry cutoff s).1 := by
  induction e using Entry.inductionOn with
  | hfile n lm sz =>
      intro _ p s hs
      cases p with
      | nil => rw [subtreeAt] at hs; cases hs; rw [optSubtree_nil]
      | cons a p => rw [subtreeAt] at hs; cases hs
  | hunread n =>
      intro _ p s hs
      cases p with
      | nil => rw [subtreeAt] at hs; cases hs; rw [optSubtree_nil]
      | cons a p => rw [subtreeAt] at hs; cases hs
  | hdir n cs ih =>
      intro hw p s hs
      obtain ⟨hnd, hwl⟩ := wf_dir n cs hw
      cases p with
      | nil => rw [subtreeAt] at hs; cases hs; rw [optSubtree_nil]
      | cons m q =>
          rw [subtreeAt] at hs
          by_cases he : (execList cutoff cs).1.isEmpty
          · rw [execEntry, if_pos he, optSubtree]
            have hall : allVanish cutoff cs = true := by
              rw [← execList_isEmpty]; exact he
            have hvs : wouldVanish cutoff s = true :=
              vanish_subtreeInList_aux cutoff m q s cs
                (fun c hc => vanish_subtree cutoff c) hall hs
            rw [exec_none_of_vanish cutoff s hvs]
          · rw [execEntry, if_neg he, optSubtree, subtreeAt]
            exact exec_subtree_list_aux cutoff m q s cs ih hnd hwl hs

theorem retained_not_vanish (cutoff : Nat) (e : Entry)
    (h : hasRetainedFile cutoff e = true) : wouldVanish cutoff e = false := by
  cases hvv : wouldVanish cutoff e with
  | false => rfl
  | true =>
      exfalso
      have hnone := exec_none_of_vanish cutoff e hvv
      have hf := filesIn_exec cutoff e
      rw [hnone] at hf
      rw [hasRetainedFile, List.any_eq_true] at h
      obtain ⟨q, hq, hP⟩ := h
      have : q ∈ filesInOpt (none : Option Entry) := by
        rw [hf]; exact List.mem_filter.mpr ⟨hq, hP⟩
      rw [filesInOpt] at this
      cases this

/-! ## Claim theorems: retention boundary, dry-run parity, directory cleanup -/

/-- C1: For every file candidate observed by an `Execute` run, if its
`lastModified` is strictly below the retention cutoff the file no longer
exists after the run, and if its `lastModified` is at or above the cutoff
(equality included) the file still exists after the run; classification
marks a candidate expired iff `lastModified < cutoff`. -/
theorem c1_retention_boundary (cutoff : Nat) (roots : List Entry)
    (p : List String) (lm sz : Nat)
    (hmem : (p, lm, sz) ∈ filesInList roots) :
    (lm < cutoff →
       (p, lm, sz) ∉ filesInList (runRetention .execute cutoff roots).1) ∧
    (cutoff ≤ lm →
       (p, lm, sz) ∈ filesInList (runRetention .execute cutoff roots).1) ∧
    (isExpired cutoff lm = true ↔ lm < cutoff) := by
  have hfilter : filesInList (runRetention .execute cutoff roots).1
      = (filesInList roots).filter (fun q => !isExpired cutoff q.2.1) := by
    rw [runRetention]; exact filesIn_execList cutoff roots
  refine ⟨?_, ?_, ?_⟩
  · intro hlt hin
    rw [hfilter] at hin
    have h2 := (List.mem_filter.mp hin).2
    simp [isExpired] at h2
    omega
  · intro hge
    rw [hfilter]
    refine List.mem_filter.mpr ⟨hmem, ?_⟩
    simp [isExpired]
    omega
  · simp [isExpired]

theorem c1_retention_boundary_witness :
    ((["A", "old"], 0, 5) ∈ filesInList
        [Entry.dir "A" [Entry.file "old" 0 5, Entry.file "new" 10 5]]) ∧
    ((0 < 7 → (["A", "old"], 0, 5) ∉ filesInList
        (runRetention .execute 7
          [Entry.dir "A" [Entry.file "old" 0 5, Entry.file "new" 10 5]]).1) ∧
     (7 ≤ 0 → (["A", "old"], 0, 5) ∈ filesInList
        (runRetention .execute 7
          [Entry.dir "A" [Entry.file "old" 0 5, Entry.file "new" 10 5]]).1) ∧
     (isExpired 7 0 = true ↔ 0 < 7)) :=
  ⟨by decide,
   c1_retention_boundary 7
     [Entry.dir "A" [Entry.file "old" 0 5, Entry.file "new" 10 5]]
     ["A", "old"] 0 5 (by decide)⟩

/-- C7: For every input tree and cutoff, a `DryRun` performs no filesystem
mutation (the tree afterward is the tree beforehand), produces a
classification report identical to what an `Execute` run would report for
the same tree, and running `DryRun` twice yields the same result as running
it once (dry-run is idempotent). -/
theorem c7_dryrun_parity (cutoff : Nat) (roots : List Entry) :
    (runRetention .dryRun cutoff roots).1 = roots ∧
    (runRetention .dryRun cutoff roots).2
      = (runRetention .execute cutoff roots).2 ∧
    runRetention .dryRun cutoff (runRetention .dryRun cutoff roots).1
      = runRetention .dryRun cutoff roots := by
  refine ⟨rfl, ?_, rfl⟩
  rw [runRetention, runRetention]
  exact dryList_parity cutoff roots

/-- C5: For every run, a directory is removed by Directory Cleanup only if
it contains zero entries after its own children have been evaluated (every
child would vanish); in particular a directory containing at least one
retained (non-expired) file is never removed, even if all of its expired
files are deleted. -/
theorem c5_directory_cleanup (cutoff : Nat) (root : Entry) (p : List String)
    (n : String) (cs : List Entry)
    (hwf : wfEntry root = true)
    (hsub : subtreeAt root p = some (.dir n cs)) :
    (hasRetainedFile cutoff (.dir n cs) = true →
       ∃ cs2, optSubtree (execEntry cutoff root).1 p = some (.dir n cs2)) ∧
    (optSubtree (execEntry cutoff root).1 p = none →
       allVanish cutoff cs = true) := by
  have hL := exec_subtree cutoff root hwf p _ hsub
  constructor
  · intro hret
    have hnv := retained_not_vanish cutoff _ hret
    rw [wouldVanish] at hnv
    have hne : (execList cutoff cs).1.isEmpty = false := by
      rw [execList_isEmpty]; exact hnv
    rw [hL, execEntry, if_neg (by rw [hne]; exact Bool.false_ne_true)]
    exact ⟨(execList cutoff cs).1, rfl⟩
  · intro hnone
    rw [hL] at hnone
    have hv := vanish_of_exec_none cutoff _ hnone
    rw [wouldVanish] at hv
    exact hv

theorem c5_directory_cleanup_witness :
    wfEntry (Entry.dir "R"
        [Entry.dir "A" [Entry.file "old" 0 5, Entry.file "new" 10 5]]) = true ∧
    subtreeAt (Entry.dir "R"
        [Entry.dir "A" [Entry.file "old" 0 5, Entry.file "new" 10 5]]) ["A"]
      = some (.dir "A" [Entry.file "old" 0 5, Entry.file "new" 10 5]) ∧
    ((hasRetainedFile 7
        (.dir "A" [Entry.file "old" 0 5, Entry.file "new" 10 5]) = true →
       ∃ cs2, optSubtree
         (execEntry 7 (Entry.dir "R"
           [Entry.dir "A" [Entry.file "old" 0 5, Entry.file "new" 10 5]])).1
         ["A"] = some (.dir "A" cs2)) ∧
     (optSubtree
         (execEntry 7 (Entry.dir "R"
           [Entry.dir "A" [Entry.file "old" 0 5, Entry.file "new" 10 5]])).1
         ["A"] = none →
       allVanish 7 [Entry.file "old" 0 5, Entry.file "new" 10 5] = true)) :=
  ⟨rfl, rfl,
   c5_directory_cleanup 7
     (Entry.dir "R"
       [Entry.dir "A" [Entry.file "old" 0 5, Entry.file "new" 10 5]])
     ["A"] "A" [Entry.file "old" 0 5, Entry.file "new" 10 5] rfl rfl⟩

/-! ## Claim theorems: lock manager -/

/-- C2: For two lock-acquisition attempts on the same archive root
(interleaved at the granularity of the atomic exclusive-create, each
attempt by a live process), starting from no lock exactly one attempt
results in `acquired` and the other in `lockHeld`, leaving the single lock
record of the winner; and from any starting lock state it is never the
case that both attempts result in `acquired`.  (At most one lock record
exists at any time by construction of `LockState`.) -/
theorem c2_lock_exclusive (pid1 pid2 t1 t2 : Nat) (running : List Nat)
    (h1 : pid1 ∈ running) :
    ((acquire pid1 t1 running .normal none none).1 = .acquired ∧
     (acquire pid2 t2 running .normal none
        (acquire pid1 t1 running .normal none none).2.1).1 = .lockHeld ∧
     (acquire pid2 t2 running .normal none
        (acquire pid1 t1 running .normal none none).2.1).2.1
       = some ⟨pid1, t1⟩) ∧
    (∀ s0 : LockState,
       ¬((acquire pid1 t1 running .normal none s0).1 = .acquired ∧
         (acquire pid2 t2 running .normal none
            (acquire pid1 t1 running .normal none s0).2.1).1 = .acquired)) := by
  constructor
  · refine ⟨rfl, ?_, ?_⟩ <;> simp [acquire, tryCreate, h1]
  · intro s0
    rintro ⟨ha1, ha2⟩
    cases s0 with
    | none =>
        rw [show (acquire pid1 t1 running .normal none none).2.1
            = some ⟨pid1, t1⟩ from rfl] at ha2
        simp [acquire, tryCreate, h1] at ha2
    | some r =>
        by_cases hr : r.ownerProcessId ∈ running
        · simp [acquire, tryCreate, hr] at ha1
        · rw [show (acquire pid1 t1 running .normal none (some r)).2.1
              = if r.ownerProcessId ∈ running then some r
                else some ⟨pid1, t1⟩ from by
            simp only [acquire, tryCreate]
            split <;> rfl] at ha2
          rw [if_neg hr] at ha2
          simp [acquire, tryCreate, h1] at ha2

theorem c2_lock_exclusive_witness :
    (100 ∈ [100, 200]) ∧
    (((acquire 100 1 [100, 200] .normal none none).1 = .acquired ∧
      (acquire 200 2 [100, 200] .normal none
         (acquire 100 1 [100, 200] .normal none none).2.1).1 = .lockHeld ∧
      (acquire 200 2 [100, 200] .normal none
         (acquire 100 1 [100, 200] .normal none none).2.1).2.1
        = some ⟨100, 1⟩) ∧
     (∀ s0 : LockState,
        ¬((acquire 100 1 [100, 200] .normal none s0).1 = .acquired ∧
          (acquire 200 2 [100, 200] .normal none
             (acquire 100 1 [100, 200] .normal none s0).2.1).1 = .acquired))) :=
  ⟨by decide, c2_lock_exclusive 100 200 1 2 [100, 200] (by decide)⟩

/-- C3: When acquisition finds a lock file whose recorded owner process id
does not correspond to any running process, the lock file is removed and
acquisition is retried exactly once (retry count 1), after which
acquisition succeeds with the caller's fresh lock record; a full run from
that lock state completes normally (exit code 0) whenever its per-file
errors stay within the configured threshold. -/
theorem c3_stale_lock (pid t opid t0 : Nat) (running : List Nat)
    (h : opid ∉ running) :
    acquire pid t running .normal none (some ⟨opid, t0⟩)
      = (.acquired, some ⟨pid, t⟩, 1) ∧
    (∀ (roots : List Entry) (cfg : RunConfig),
       (runRetention cfg.mode cfg.cutoff roots).2.errors ≤ cfg.threshold →
       (fullRun pid t running .normal none (some ⟨opid, t0⟩)
          (some roots) cfg).1 = 0) := by
  have hacq : acquire pid t running .normal none (some ⟨opid, t0⟩)
      = (.acquired, some ⟨pid, t⟩, 1) := by
    simp [acquire, tryCreate, h]
  refine ⟨hacq, ?_⟩
  intro roots cfg herr
  simp only [fullRun, hacq]
  rw [if_neg (Nat.not_lt.mpr herr)]

theorem c3_stale_lock_witness :
    (999 ∉ [100]) ∧
    (acquire 100 5 [100] .normal none (some ⟨999, 1⟩)
       = (.acquired, some ⟨100, 5⟩, 1) ∧
     (∀ (roots : List Entry) (cfg : RunConfig),
        (runRetention cfg.mode cfg.cutoff roots).2.errors ≤ cfg.threshold →
        (fullRun 100 5 [100] .normal none (some ⟨999, 1⟩)
           (some roots) cfg).1 = 0)) :=
  ⟨by decide, c3_stale_lock 100 5 999 1 [100] (by decide)⟩

/-- C4: Under `ForceClearLock`, after removing an existing lock the manager
re-verifies by attempting an exclusive create immediately after the delete,
and if that creation fails (a concurrent writer raced in) it reports
`lockHeld` rather than silently succeeding; and five `ForceClearLock`
invocations in rapid succession against a repeatedly recreated orphaned
lock, with no real concurrent writer, all acquire — none reports a race
failure. -/
theorem c4_forceclearlock (pid t : Nat) (running : List Nat)
    (r w orphan : LockRecord) :
    (acquire pid t running .forceClearLock (some w) (some r)).1 = .lockHeld ∧
    repeatedForceClear pid t running orphan 5
      = List.replicate 5 .acquired :=
  ⟨rfl, rfl⟩

/-! ## Claim theorems: orchestrator policy and exit codes -/

/-- C6: A network-path root with no explicit override selects `Parallel`
with the fixed documented default worker count; a local-path root defaults
to `Sequential`; a network-path root with the sequential override set
surfaces a performance warning (advisory flag) and executes strictly
single-threaded (worker count 1). -/
theorem c6_concurrency_policy :
    decideConcurrency .network false
      = (.parallel defaultParallelThreads, false) ∧
    decideConcurrency .localPath false = (.sequential, false) ∧
    decideConcurrency .network true = (.sequential, true) ∧
    (decideConcurrency .network true).1.workerCount = 1 :=
  ⟨rfl, rfl, rfl, rfl⟩

/-- C8: A run exits with code 0 exactly when it completed successfully:
the lock was acquired, the archive root was reachable, and the per-file
error count did not exceed the configured failure threshold (in either
execution mode, dry-run included).  Fatal failures — lock not acquired or
root unreachable — yield a non-zero exit code, and per-file errors change
the exit code only by exceeding the threshold. -/
theorem c8_exit_codes (pid t : Nat) (running : List Nat) (amode : AcqMode)
    (interloper : Option LockRecord) (lockSt : LockState)
    (root : Option (List Entry)) (cfg : RunConfig) :
    (fullRun pid t running amode interloper lockSt root cfg).1 = 0 ↔
      ((acquire pid t running amode interloper lockSt).1 = .acquired ∧
       ∃ roots, root = some roots ∧
         (runRetention cfg.mode cfg.cutoff roots).2.errors ≤ cfg.threshold) := by
  rcases hacq : acquire pid t running amode interloper lockSt with ⟨res, after, k⟩
  cases res with
  | acquired =>
      cases root with
      | none => simp [fullRun, hacq]
      | some roots =>
          simp only [fullRun, hacq]
          by_cases hth : cfg.threshold
              < (runRetention cfg.mode cfg.cutoff roots).2.errors
          · rw [if_pos hth]; simp; omega
          · rw [if_neg hth]; simp; omega
  | lockHeld => simp [fullRun, hacq]
  | lockError => simp [fullRun, hacq]

/-! ## Claim theorem: winrm_helper.run_powershell -/

/-- C9: `run_powershell` is total — it returns the three-field record
(exactly the keys `exit_code`, `stdout`, `stderr`) for every outcome of the
underlying session call and never propagates an exception: when the call
raises, it returns exit code -1, empty stdout, and the exception message as
stderr; when the call returns, the reported exit code is the session's
status code. -/
theorem c9_run_powershell_contract :
    (∀ e, run_powershell (Except.error e)
        = { exit_code := -1, stdout := "", stderr := e }) ∧
    (∀ r, (run_powershell (Except.ok r)).exit_code = r.status_code) :=
  ⟨fun _ => rfl, fun _ => rfl⟩

/-! ## Claim theorems: auto_scale_parameters -/

theorem requiredSpaceGB_cx : ¬(requiredSpaceGB 10 1 200 2 ≤ 1 / 16) := by
  rw [requiredSpaceGB, avgFilesPerFolder, avgFileSize]
  norm_num

theorem totalFilesAllowed_cx : totalFilesAllowed 2 (1 / 16) = 60 := by
  rw [totalFilesAllowed, avgFileSize]
  rw [show ((1 : ℚ) / 16 * 1024 * 1024 * 1024)
      / ((((2 : Nat) : ℚ) * 1024 * 1024) / 2 * (1 + 5 / 100))
      = 1280 / 21 from by norm_num]
  rw [Int.floor_eq_iff]
  norm_num

theorem idealFolderCount_cx : idealFolderCount 1 200 2 (1 / 16) = 0 := by
  rw [idealFolderCount, totalFilesAllowed_cx, avgFilesPerFolder]
  rw [show (((60 : ℤ) : ℚ)) / ((((1 : Nat) : ℚ) + ((200 : Nat) : ℚ)) / 2)
      = 40 / 67 from by norm_num]
  rw [Int.floor_eq_iff]
  norm_num

/-- C10 (counterexample): at `folder_count = 10`, `min_files = 1`,
`max_files = 200`, `max_file_size_mb = 2`, `max_size_gb = 1/16` — inputs
satisfying the claim's hypotheses `min_files ≤ max_files` and
`0 < max_size_gb` — `auto_scale_parameters` returns a folder count of 60,
exceeding the requested folder count of 10: the scaling fallback recomputes
the folder count from `min_files` and can exceed the request. -/
theorem c10_auto_scale_counterexample :
    (1 : Nat) ≤ 200 ∧ (0 : ℚ) < 1 / 16 ∧
    (auto_scale_parameters 10 1 200 2 (1 / 16)).1 = 60 ∧
    ¬((auto_scale_parameters 10 1 200 2 (1 / 16)).1 ≤ 10) := by
  have hval : (auto_scale_parameters 10 1 200 2 (1 / 16)).1 = 60 := by
    rw [auto_scale_parameters, if_neg requiredSpaceGB_cx,
      if_neg (by rw [idealFolderCount_cx]; decide)]
    simp only [totalFilesAllowed_cx]
    rw [show (((60 : ℤ) : ℚ)) / (((1 : Nat) : ℚ)) = ((60 : ℤ) : ℚ) from by
      norm_num]
    rw [Int.floor_intCast]
    rfl
  refine ⟨by decide, by norm_num, hval, ?_⟩
  rw [hval]; decide

/-- C10 (amended): for every input with `1 ≤ min_files ≤ max_files` and
positive `max_size_gb`, `auto_scale_parameters` returns a folder count that
is at least 1 whenever the requested folder count is at least 1, and a
max-files value that is at least `min_files` and never exceeds the
requested `max_files`; when the estimated total size with the 5% safety
margin already fits within `max_size_gb` it returns the inputs unchanged.
(The returned folder count can exceed the requested one in the fallback
branch — see the counterexample.) -/
theorem c10_auto_scale_amended (fc minf maxf mfsmb : Nat) (msg : ℚ)
    (_hmin : 1 ≤ minf) (hmm : minf ≤ maxf) (_hpos : 0 < msg) :
    (1 ≤ fc → 1 ≤ (auto_scale_parameters fc minf maxf mfsmb msg).1) ∧
    minf ≤ (auto_scale_parameters fc minf maxf mfsmb msg).2 ∧
    (auto_scale_parameters fc minf maxf mfsmb msg).2 ≤ maxf ∧
    (requiredSpaceGB fc minf maxf mfsmb ≤ msg →
       auto_scale_parameters fc minf maxf mfsmb msg = (fc, maxf)) := by
  by_cases hfit : requiredSpaceGB fc minf maxf mfsmb ≤ msg
  · rw [auto_scale_parameters, if_pos hfit]
    exact ⟨fun h => h, hmm, le_rfl, fun _ => rfl⟩
  · by_cases hideal : 1 ≤ idealFolderCount minf maxf mfsmb msg
    · rw [auto_scale_parameters, if_neg hfit, if_pos hideal]
      refine ⟨?_, hmm, le_rfl, fun h => absurd h hfit⟩
      intro hfc
      have : 1 ≤ (idealFolderCount minf maxf mfsmb msg).toNat := by omega
      omega
    · rw [auto_scale_parameters, if_neg hfit, if_neg hideal]
      dsimp only
      refine ⟨?_, ?_, ?_, fun h => absurd h hfit⟩
      · intro _; omega
      · omega
      · omega

theorem c10_auto_scale_amended_witness :
    ((1 : Nat) ≤ 1 ∧ (1 : Nat) ≤ 200 ∧ (0 : ℚ) < 1 / 16) ∧
    ((1 ≤ 10 → 1 ≤ (auto_scale_parameters 10 1 200 2 (1 / 16)).1) ∧
     1 ≤ (auto_scale_parameters 10 1 200 2 (1 / 16)).2 ∧
     (auto_scale_parameters 10 1 200 2 (1 / 16)).2 ≤ 200 ∧
     (requiredSpaceGB 10 1 200 2 ≤ 1 / 16 →
        auto_scale_parameters 10 1 200 2 (1 / 16) = (10, 200))) :=
  ⟨⟨by decide, by decide, by norm_num⟩,
   c10_auto_scale_amended 10 1 200 2 (1 / 16)
     (by decide) (by decide) (by norm_num)⟩
